import Mathlib

/-!
Shallow embedding of `src/wasi-compat/src/wasm_module/mod.rs` (the WebAssembly
binary container codec) together with the `varint` unsigned-LEB128 codec it
depends on.

Modelling conventions:
* A byte source (`impl Read`) is a `List Nat` of byte values, consumed from the
  front; each reading primitive returns the value read together with the
  remaining list, or a `WSError`.
* A byte sink (`impl Write`) is a `List Nat` accumulator; in-memory sinks
  (`io::Cursor<Vec<u8>>` and friends) never fail, so the `Result<(), WSError>`
  of the Rust writers, whose only failure paths are sink I/O errors, becomes
  the updated sink value itself.
* Machine integers are `Nat` with explicit `% 2 ^ w` / `< 2 ^ w` reasoning
  where width matters (`u8` payload bytes, the `u32` range of `get32`).
* A custom section's `name` (`String` in Rust) is kept as its UTF-8 byte list;
  `str::from_utf8` validation is embedded as the `utf8Valid` checker below,
  and since UTF-8 decoding is the identity on the underlying bytes this is a
  faithful byte-for-byte view of the Rust `String`.
* Bounded loops in the Rust code are given explicit structural fuel where the
  loop bound is data-dependent (`varint::put`, the section-collection loop of
  `Module::deserialize`); in each case the fuel is provably sufficient and a
  congruence lemma shows the result does not depend on the exact fuel chosen.
-/

deriving instance DecidableEq for Except

namespace Wasm

/-- Modelled from the spec: the error type `WSError` lives in `src/error.rs`,
which is not under `src/`; its variants follow spec section 7 (error kinds):
clean end-of-input at a section boundary (`Eof`), end-of-input mid-field or
mid-payload (`TruncatedInput`), malformed or overlong varint (`Overflow`),
invalid custom-section name bytes (`InvalidUtf8`), and an unrecognized header
(`UnsupportedModuleType`). -/
inductive WSError where
  | Eof
  | TruncatedInput
  | Overflow
  | InvalidUtf8
  | UnsupportedModuleType
deriving DecidableEq, Repr

/-- Read exactly `n` bytes from the source (`Read::read_exact`); any shortfall
is the truncation-class error of spec section 4.1 / section 7. -/
def readExact (n : Nat) (reader : List Nat) : Except WSError (List Nat × List Nat) :=
  if n ≤ reader.length then .ok (reader.take n, reader.drop n)
  else .error WSError.TruncatedInput

/-- Modelled from the spec: `varint::put` lives in
`src/wasi-compat/src/wasm_module/varint.rs`, which is not under `src/`; spec
section 4.1: minimal unsigned LEB128, 7 value bits per byte, least-significant
group first, continuation bit set on every byte except the last.  The Rust
loop terminates because the value shrinks by a factor of 128 each iteration;
`fuel` is that bound made explicit (`v` itself always suffices, see
`putAux_congr`), and the fuel-exhausted arm agrees with the `v = 0` base
case so the choice of fuel is irrelevant. -/
def varint.putAux : Nat → Nat → List Nat
  | 0, v => [v % 128]
  | fuel + 1, v => if v < 128 then [v] else (v % 128 + 128) :: varint.putAux fuel (v / 128)

/-- Modelled from the spec: `varint::put(sink, value)` writes the minimal
unsigned-LEB128 encoding of `value` (spec section 4.1); the sink is a list so
the write itself cannot fail. -/
def varint.put (v : Nat) : List Nat :=
  varint.putAux v v

/-- Modelled from the spec: `varint::get7(source)` (spec section 4.1) reads
exactly one byte masked to 7 bits; an exhausted source before any byte is
consumed is the distinguished clean end-of-stream condition `Eof`. -/
def varint.get7 (reader : List Nat) : Except WSError (Nat × List Nat) :=
  match reader with
  | [] => .error WSError.Eof
  | b :: rest => .ok (b % 128, rest)

/-- Modelled from the spec: the loop body of `varint::get32` (spec section
4.1).  `fuel` counts the bytes still allowed to be continuation-chained: after
5 such bytes the decode fails with the overflow error, reading a byte whose
continuation bit is clear terminates and fails with overflow if the
accumulated value exceeds the 32-bit range, and an exhausted source mid-field
is the truncation error, never the clean `Eof`. -/
def varint.get32Aux : Nat → Nat → Nat → List Nat → Except WSError (Nat × List Nat)
  | 0, _, _, _ => .error WSError.Overflow
  | _ + 1, _, _, [] => .error WSError.TruncatedInput
  | fuel + 1, shift, acc, b :: rest =>
    let acc' := acc + b % 128 * 2 ^ shift
    if b % 256 < 128 then
      if acc' < 2 ^ 32 then .ok (acc', rest) else .error WSError.Overflow
    else varint.get32Aux fuel (shift + 7) acc' rest

/-- Modelled from the spec: `varint::get32(source)` (spec section 4.1) reads a
full unsigned-LEB128 value into a 32-bit unsigned integer, allowing at most
5 bytes. -/
def varint.get32 (reader : List Nat) : Except WSError (Nat × List Nat) :=
  varint.get32Aux 5 0 0 reader

/-- UTF-8 validity of a byte sequence, as accepted by Rust's
`str::from_utf8` (RFC 3629): the state is the list of admissible ranges for
the continuation bytes still owed by the current scalar value. -/
def utf8ValidAux : List (Nat × Nat) → List Nat → Bool
  | [], [] => true
  | _ :: _, [] => false
  | (lo, hi) :: pending, b :: rest =>
    decide (lo ≤ b ∧ b ≤ hi) && utf8ValidAux pending rest
  | [], b :: rest =>
    if b ≤ 127 then utf8ValidAux [] rest
    else if 194 ≤ b ∧ b ≤ 223 then utf8ValidAux [(128, 191)] rest
    else if b = 224 then utf8ValidAux [(160, 191), (128, 191)] rest
    else if 225 ≤ b ∧ b ≤ 236 then utf8ValidAux [(128, 191), (128, 191)] rest
    else if b = 237 then utf8ValidAux [(128, 159), (128, 191)] rest
    else if 238 ≤ b ∧ b ≤ 239 then utf8ValidAux [(128, 191), (128, 191)] rest
    else if b = 240 then utf8ValidAux [(144, 191), (128, 191), (128, 191)] rest
    else if 241 ≤ b ∧ b ≤ 243 then utf8ValidAux [(128, 191), (128, 191), (128, 191)] rest
    else if b = 244 then utf8ValidAux [(128, 143), (128, 191), (128, 191)] rest
    else false

/-- UTF-8 validity entry point: start with no continuation bytes owed. -/
def utf8Valid (l : List Nat) : Bool :=
  utf8ValidAux [] l

/-- Header type of `mod.rs` line 12: `pub type Header = [u8; 8]`, as a byte
list (always of length 8 where it matters). -/
def WASM_HEADER : List Nat := [0x00, 0x61, 0x73, 0x6d, 0x01, 0x00, 0x00, 0x00]

/-- Component-model header constant of `mod.rs` line 15. -/
def WASM_HEADER_COMPONENT : List Nat := [0x00, 0x61, 0x73, 0x6d, 0x0d, 0x00, 0x01, 0x00]

/-- Section identifier enum of `mod.rs` lines 17-34.  The Rust constructor
`Type` is spelled `Type'` because `Type` is reserved in Lean; `Extension`
carries the raw byte (a `u8` in Rust, hence morally `< 256`). -/
inductive SectionId where
  | CustomSection
  | Type'
  | Import
  | Function
  | Table
  | Memory
  | Global
  | Export
  | Start
  | Element
  | Code
  | Data
  | Extension (x : Nat)
deriving DecidableEq, Repr

/-- Conversion `impl From<u8> for SectionId`, `mod.rs` lines 36-54. -/
def SectionId.fromByte (v : Nat) : SectionId :=
  if v = 0 then SectionId.CustomSection
  else if v = 1 then SectionId.Type'
  else if v = 2 then SectionId.Import
  else if v = 3 then SectionId.Function
  else if v = 4 then SectionId.Table
  else if v = 5 then SectionId.Memory
  else if v = 6 then SectionId.Global
  else if v = 7 then SectionId.Export
  else if v = 8 then SectionId.Start
  else if v = 9 then SectionId.Element
  else if v = 10 then SectionId.Code
  else if v = 11 then SectionId.Data
  else SectionId.Extension v

/-- Conversion `impl From<SectionId> for u8`, `mod.rs` lines 56-74. -/
def SectionId.toByte : SectionId → Nat
  | SectionId.CustomSection => 0
  | SectionId.Type' => 1
  | SectionId.Import => 2
  | SectionId.Function => 3
  | SectionId.Table => 4
  | SectionId.Memory => 5
  | SectionId.Global => 6
  | SectionId.Export => 7
  | SectionId.Start => 8
  | SectionId.Element => 9
  | SectionId.Code => 10
  | SectionId.Data => 11
  | SectionId.Extension x => x

/-- Canonical-form predicate for `SectionId` values, following the data model
of spec section 3: `Extension` carries a byte value in 12-255 (values 0-11 are
represented by the dedicated constructors, and the payload is a `u8`). -/
def SectionId.wfb : SectionId → Bool
  | SectionId.Extension x => decide (12 ≤ x ∧ x < 256)
  | _ => true

/-- Standard section, `mod.rs` lines 103-115. -/
structure StandardSection where
  id : SectionId
  payload : List Nat
deriving DecidableEq, Repr

/-- Custom section, `mod.rs` lines 134-145; `name` is the UTF-8 byte view of
the Rust `String`. -/
structure CustomSection where
  name : List Nat
  payload : List Nat
deriving DecidableEq, Repr

/-- Custom-section on-wire payload `CustomSection::outer_payload`, `mod.rs`
lines 155-161: `varint(len(name)) ++ name_bytes ++ payload_bytes`, recomputed
on demand (the in-memory cursor sink cannot fail). -/
def CustomSection.outer_payload (s : CustomSection) : List Nat :=
  varint.put s.name.length ++ s.name ++ s.payload

/-- Module section, `mod.rs` lines 184-193. -/
inductive Section where
  | Standard (s : StandardSection)
  | Custom (s : CustomSection)
deriving DecidableEq, Repr

/-- Trait method `SectionLike::id` as implemented by both variants
(`mod.rs` lines 117-121 and 164-167, dispatched at lines 195-201). -/
def Section.id : Section → SectionId
  | Section.Standard s => s.id
  | Section.Custom _ => SectionId.CustomSection

/-- Constructor `Section::new`, `mod.rs` lines 218-235: a custom-section
payload is decoded as `varint32(name_len) ++ name_bytes[name_len] ++ rest`
(with UTF-8 validation of the name); any other id wraps the payload verbatim.
The Rust `payload.truncate(len)` after `read_to_end` is a no-op and is elided. -/
def Section.new (id : SectionId) (payload : List Nat) : Except WSError Section :=
  match id with
  | SectionId.CustomSection =>
    match varint.get32 payload with
    | .error e => .error e
    | .ok (name_len, r1) =>
      match readExact name_len r1 with
      | .error e => .error e
      | .ok (name_slice, r2) =>
        if utf8Valid name_slice then .ok (Section.Custom ⟨name_slice, r2⟩)
        else .error WSError.InvalidUtf8
  | _ => .ok (Section.Standard ⟨id, payload⟩)

/-- Wire-format reader `Section::deserialize`, `mod.rs` lines 237-249:
`get7` id byte (clean `Eof` means no more sections), `get32` length,
`read_exact` payload, then `Section::new`. -/
def Section.deserialize (reader : List Nat) : Except WSError (Option Section × List Nat) :=
  match varint.get7 reader with
  | .error WSError.Eof => .ok (none, reader)
  | .error e => .error e
  | .ok (idb, r1) =>
    match varint.get32 r1 with
    | .error e => .error e
    | .ok (len, r2) =>
      match readExact len r2 with
      | .error e => .error e
      | .ok (payload, r3) =>
        match Section.new (SectionId.fromByte idb) payload with
        | .error e => .error e
        | .ok s => .ok (some s, r3)

/-- Wire-format writer `Section::serialize`, `mod.rs` lines 251-265: choose
the bytes to write (raw payload for a standard section, `outer_payload()` for
a custom one), then write `varint(id byte)`, `varint(length)`, and the bytes. -/
def Section.serialize (s : Section) (writer : List Nat) : List Nat :=
  let payload :=
    match s with
    | Section.Standard st => st.payload
    | Section.Custom c => c.outer_payload
  let writer := writer ++ varint.put (SectionId.toByte s.id)
  let writer := writer ++ varint.put payload.length
  writer ++ payload

/-- Module value, `mod.rs` lines 282-287. -/
structure Module where
  header : List Nat
  sections : List Section
deriving DecidableEq, Repr

/-- Header parser `Module::stream_init`, `mod.rs` lines 322-334: read exactly
8 bytes and require one of the two recognized constants, else fail with
`UnsupportedModuleType`. -/
def Module.stream_init (reader : List Nat) : Except WSError (List Nat × List Nat) :=
  match readExact 8 reader with
  | .error e => .error e
  | .ok (header, rest) =>
    if header = WASM_HEADER then .ok (header, rest)
    else if header = WASM_HEADER_COMPONENT then .ok (header, rest)
    else .error WSError.UnsupportedModuleType

/-- Section-collection loop of `Module::deserialize` (`mod.rs` lines 291-299)
driven by `SectionsIterator::next` (`mod.rs` lines 349-359): repeatedly call
`Section::deserialize`; `Ok(None)` ends the list, the first error aborts.
The Rust loop terminates because every parsed section consumes at least its id
byte (`Section.deserialize_length_lt` below); `fuel` makes that bound explicit
and `input length + 1` always suffices, so the fuel-exhausted arm (returning
the empty list) is never reached, see `collectSectionsFuel_congr`. -/
def collectSectionsFuel : Nat → List Nat → Except WSError (List Section)
  | 0, _ => .ok []
  | fuel + 1, l =>
    match Section.deserialize l with
    | .error e => .error e
    | .ok (none, _) => .ok []
    | .ok (some s, rest) =>
      match collectSectionsFuel fuel rest with
      | .error e => .error e
      | .ok ss => .ok (s :: ss)

/-- Eager collection of all sections of a (post-header) byte stream, as
performed by the `for section in it` loop of `Module::deserialize`. -/
def collectSections (l : List Nat) : Except WSError (List Section) :=
  collectSectionsFuel (l.length + 1) l

/-- Whole-module reader `Module::deserialize`, `mod.rs` lines 290-299:
`stream_init`, then eagerly collect all sections; any error is returned as the
overall result and no `Module` is produced. -/
def Module.deserialize (reader : List Nat) : Except WSError Module :=
  match Module.stream_init reader with
  | .error e => .error e
  | .ok (header, rest) =>
    match collectSections rest with
    | .error e => .error e
    | .ok sections => .ok ⟨header, sections⟩

/-- Whole-module writer `Module::serialize`, `mod.rs` lines 307-314: write the
header verbatim, then each section in original order (the list sink cannot
fail). -/
def Module.serialize (m : Module) (writer : List Nat) : List Nat :=
  m.sections.foldl (fun w s => Section.serialize s w) (writer ++ m.header)

/-- Concatenated serialization of a list of sections (the bytes the
section-writing loop of `Module::serialize` appends after the header). -/
def sectionsBytes : List Section → List Nat
  | [] => []
  | s :: rest => Section.serialize s [] ++ sectionsBytes rest

/-- Bytes of the payloads are in `u8` range. -/
def byteListOk (l : List Nat) : Bool :=
  l.all (fun b => decide (b < 256))

/-- Syntactic validity of a section value, following the data model of spec
section 3: a standard section has a canonical, non-custom id and a payload of
`u8` bytes whose length fits the `u32` length field; a custom section has a
valid UTF-8 name and `u8` payload bytes, with both the name length and the
on-wire outer payload length in `u32` range. -/
def Section.validb : Section → Bool
  | Section.Standard st =>
    st.id.wfb && decide (st.id ≠ SectionId.CustomSection) && byteListOk st.payload
      && decide (st.payload.length < 2 ^ 32)
  | Section.Custom c =>
    utf8Valid c.name && byteListOk c.payload && decide (c.name.length < 2 ^ 32)
      && decide (c.outer_payload.length < 2 ^ 32)

/-- Syntactic validity of a module value (spec sections 3 and 8): a recognized
header plus any ordered sequence of valid sections. -/
def Module.validb (m : Module) : Bool :=
  decide (m.header = WASM_HEADER ∨ m.header = WASM_HEADER_COMPONENT)
    && m.sections.all Section.validb

/-- Predicate selecting sections whose id byte is below 128 (single-byte
LEB128 encoding). -/
def Section.idByteSmall (s : Section) : Bool :=
  decide (SectionId.toByte s.id < 128)

/-! Helper lemmas about the varint codec. -/

/-- Fuel does not matter for `putAux` once the value is below 128. -/
theorem varint.putAux_of_lt (fuel : Nat) {v : Nat} (h : v < 128) :
    varint.putAux fuel v = [v] := by
  cases fuel with
  | zero => simp [varint.putAux, Nat.mod_eq_of_lt h]
  | succ f => simp [varint.putAux, h]

/-- Any fuel at least the encoded value gives the same `putAux` result. -/
theorem varint.putAux_congr : ∀ (f1 f2 v : Nat), v ≤ f1 → v ≤ f2 →
    varint.putAux f1 v = varint.putAux f2 v := by
  intro f1
  induction f1 with
  | zero =>
    intro f2 v h1 _
    have hv : v = 0 := Nat.le_zero.mp h1
    subst hv
    rw [varint.putAux_of_lt 0 (by omega), varint.putAux_of_lt f2 (by omega)]
  | succ a ih =>
    intro f2 v h1 h2
    by_cases hv : v < 128
    · rw [varint.putAux_of_lt _ hv, varint.putAux_of_lt _ hv]
    · cases f2 with
      | zero => omega
      | succ b =>
        simp only [varint.putAux, if_neg hv]
        have hd : v / 128 < v := Nat.div_lt_self (by omega) (by omega)
        rw [ih b (v / 128) (by omega) (by omega)]

/-- Terminal equation of `varint.put`. -/
theorem varint.put_of_lt {v : Nat} (h : v < 128) : varint.put v = [v] :=
  varint.putAux_of_lt v h

/-- Unfolding equation of `varint.put` for values needing a continuation byte. -/
theorem varint.put_step {v : Nat} (h : 128 ≤ v) :
    varint.put v = (v % 128 + 128) :: varint.put (v / 128) := by
  cases v with
  | zero => omega
  | succ n =>
    show varint.putAux (n + 1) (n + 1) = _
    rw [varint.putAux]
    rw [if_neg (by omega)]
    have hd : (n + 1) / 128 < n + 1 := Nat.div_lt_self (by omega) (by omega)
    rw [varint.putAux_congr n ((n + 1) / 128) ((n + 1) / 128) (by omega) (by omega)]
    rfl

/-- Encoded length bound: a value below `2 ^ (7 * (k + 1))` takes at most
`k + 1` LEB128 bytes. -/
theorem varint.put_length_le : ∀ (k v : Nat), v < 2 ^ (7 * (k + 1)) →
    (varint.put v).length ≤ k + 1 := by
  intro k
  induction k with
  | zero =>
    intro v hv
    rw [varint.put_of_lt (show v < 128 by norm_num at hv; omega)]
    simp
  | succ a ih =>
    intro v hv
    by_cases h : v < 128
    · rw [varint.put_of_lt h]; simp
    · rw [varint.put_step (by omega)]
      have hdiv : v / 128 < 2 ^ (7 * (a + 1)) := by
        have h1 : v < 2 ^ (7 * (a + 1)) * 128 := by
          have : 7 * (a + 1 + 1) = 7 * (a + 1) + 7 := by ring
          rw [this, pow_add] at hv
          norm_num at hv
          omega
        omega
      have := ih (v / 128) hdiv
      simp only [List.length_cons]
      omega

/-- Main varint round-trip lemma at the `get32Aux` level: decoding the
encoding of `v` starting at bit position `shift` with accumulator `acc`
yields `acc + v * 2 ^ shift` (provided the fuel covers the encoded length and
the final value is in 32-bit range) and leaves the trailing bytes untouched. -/
theorem varint.get32Aux_put : ∀ (v fuel shift acc : Nat) (rest : List Nat),
    (varint.put v).length ≤ fuel → acc + v * 2 ^ shift < 2 ^ 32 →
    varint.get32Aux fuel shift acc (varint.put v ++ rest) =
      .ok (acc + v * 2 ^ shift, rest) := by
  intro v
  induction v using Nat.strong_induction_on with
  | _ v ih =>
    intro fuel shift acc rest hlen hbound
    by_cases hv : v < 128
    · rw [varint.put_of_lt hv] at hlen ⊢
      cases fuel with
      | zero => simp at hlen
      | succ f =>
        have h1 : v % 256 = v := Nat.mod_eq_of_lt (by omega)
        have h2 : v % 128 = v := Nat.mod_eq_of_lt hv
        simp only [List.cons_append, List.nil_append, varint.get32Aux, h1, h2]
        rw [if_pos hv, if_pos hbound]
        simp
    · rw [varint.put_step (by omega)] at hlen ⊢
      cases fuel with
      | zero => simp at hlen
      | succ f =>
        have hmod : v % 128 < 128 := Nat.mod_lt _ (by omega)
        have hb1 : (v % 128 + 128) % 256 = v % 128 + 128 := Nat.mod_eq_of_lt (by omega)
        have hm : (v % 128 + 128) % 128 = v % 128 := by omega
        have hpow : 2 ^ (shift + 7) = 2 ^ shift * 128 := by rw [pow_add]; norm_num
        have key : acc + v % 128 * 2 ^ shift + v / 128 * 2 ^ (shift + 7)
            = acc + v * 2 ^ shift := by
          rw [hpow]
          conv_rhs => rw [← Nat.div_add_mod v 128]
          ring
        simp only [List.cons_append, varint.get32Aux, hb1, hm]
        rw [if_neg (by omega)]
        have hrec := ih (v / 128) (Nat.div_lt_self (by omega) (by omega)) f (shift + 7)
          (acc + v % 128 * 2 ^ shift) rest (by simp at hlen; omega) (by rw [key]; exact hbound)
        simp only [List.append_eq] at hrec ⊢
        rw [hrec, key]

/-- Varint round trip: `get32` inverts `put` on any value in 32-bit range,
leaving trailing bytes untouched. -/
theorem varint.get32_put {v : Nat} (h : v < 2 ^ 32) (rest : List Nat) :
    varint.get32 (varint.put v ++ rest) = .ok (v, rest) := by
  have hlen : (varint.put v).length ≤ 5 := by
    have : v < 2 ^ (7 * (4 + 1)) := by norm_num at h ⊢; omega
    exact varint.put_length_le 4 v this
  have := varint.get32Aux_put v 5 0 0 rest hlen (by simpa using h)
  simpa [varint.get32] using this

/-- Reading the exact length of a prefix returns that prefix and the rest. -/
theorem readExact_append (l1 l2 : List Nat) :
    readExact l1.length (l1 ++ l2) = .ok (l1, l2) := by
  unfold readExact
  rw [if_pos (by simp)]
  rw [List.take_left, List.drop_left]

/-- A `readExact` failure is always the truncation error. -/
theorem readExact_error {n : Nat} {l : List Nat} {e : WSError}
    (h : readExact n l = .error e) : e = WSError.TruncatedInput := by
  unfold readExact at h
  split at h
  · exact absurd h (by simp)
  · simpa using h.symm

/-- A successful `readExact` never grows the remaining input. -/
theorem readExact_length_le {n : Nat} {l p r : List Nat}
    (h : readExact n l = .ok (p, r)) : r.length ≤ l.length := by
  unfold readExact at h
  split at h
  · simp only [Except.ok.injEq, Prod.mk.injEq] at h
    obtain ⟨_, h2⟩ := h
    subst h2
    simp
  · exact absurd h (by simp)

/-! Helper lemmas about section-id conversions and section construction. -/

/-- Bytes 12 and above map to the `Extension` catch-all. -/
theorem SectionId.fromByte_of_ge {v : Nat} (h : 12 ≤ v) :
    SectionId.fromByte v = SectionId.Extension v := by
  unfold SectionId.fromByte
  repeat rw [if_neg (by omega)]

/-- Byte-to-id conversion inverts id-to-byte on canonical identifiers. -/
theorem SectionId.fromByte_toByte {id : SectionId} (h : id.wfb = true) :
    SectionId.fromByte id.toByte = id := by
  cases id
  case Extension x =>
    simp only [SectionId.wfb, decide_eq_true_eq] at h
    rw [show SectionId.toByte (SectionId.Extension x) = x from rfl]
    exact SectionId.fromByte_of_ge h.1
  all_goals decide

/-- Constructing a non-custom section wraps the id and payload verbatim. -/
theorem Section.new_of_ne {id : SectionId} (h : id ≠ SectionId.CustomSection)
    (p : List Nat) : Section.new id p = .ok (Section.Standard ⟨id, p⟩) := by
  cases id
  case CustomSection => exact absurd rfl h
  all_goals rfl

/-! Error-discipline lemmas: `Eof` escapes only from `get7` on an exhausted
source, never from mid-field or mid-payload reads. -/

/-- The `get32` loop never reports the clean end-of-stream condition. -/
theorem varint.get32Aux_no_eof : ∀ (fuel shift acc : Nat) (l : List Nat) (e : WSError),
    varint.get32Aux fuel shift acc l = .error e → e ≠ WSError.Eof := by
  intro fuel
  induction fuel with
  | zero =>
    intro _ _ l e h
    simp only [varint.get32Aux, Except.error.injEq] at h
    subst h
    simp
  | succ f ih =>
    intro shift acc l e h
    cases l with
    | nil =>
      simp only [varint.get32Aux, Except.error.injEq] at h
      subst h
      simp
    | cons b rest =>
      simp only [varint.get32Aux] at h
      split at h
      · split at h
        · exact absurd h (by simp)
        · simp only [Except.error.injEq] at h
          subst h
          simp
      · exact ih _ _ _ _ h

/-- A successful `get32` loop never grows the remaining input. -/
theorem varint.get32Aux_length_le : ∀ (fuel shift acc : Nat) (l : List Nat)
    (v : Nat) (r : List Nat),
    varint.get32Aux fuel shift acc l = .ok (v, r) → r.length ≤ l.length := by
  intro fuel
  induction fuel with
  | zero =>
    intro _ _ l v r h
    exact absurd h (by simp [varint.get32Aux])
  | succ f ih =>
    intro shift acc l v r h
    cases l with
    | nil => exact absurd h (by simp [varint.get32Aux])
    | cons b rest =>
      simp only [varint.get32Aux] at h
      split at h
      · split at h
        · simp only [Except.ok.injEq, Prod.mk.injEq] at h
          obtain ⟨_, h2⟩ := h
          subst h2
          simp
        · exact absurd h (by simp)
      · have := ih _ _ _ _ _ h
        simp only [List.length_cons]
        omega

/-- Section construction never reports the clean end-of-stream condition. -/
theorem Section.new_no_eof {id : SectionId} {p : List Nat} {e : WSError}
    (h : Section.new id p = .error e) : e ≠ WSError.Eof := by
  cases id
  case CustomSection =>
    simp only [Section.new] at h
    cases hg : varint.get32 p with
    | error e2 =>
      rw [hg] at h
      simp only [Except.error.injEq] at h
      subst h
      exact varint.get32Aux_no_eof 5 0 0 p e2 hg
    | ok q =>
      obtain ⟨name_len, r1⟩ := q
      rw [hg] at h
      simp only at h
      cases hr : readExact name_len r1 with
      | error e2 =>
        rw [hr] at h
        simp only [Except.error.injEq] at h
        subst h
        rw [readExact_error hr]
        simp
      | ok q2 =>
        obtain ⟨name_slice, r2⟩ := q2
        rw [hr] at h
        simp only at h
        split at h
        · exact absurd h (by simp)
        · simp only [Except.error.injEq] at h
          subst h
          simp
  all_goals exact absurd h (by simp [Section.new])

/-- Section-level reads never report the clean end-of-stream condition as an
error: on an exhausted source `deserialize` returns `Ok(None)` instead, and
every later read maps exhaustion to the truncation class. -/
theorem Section.deserialize_no_eof : ∀ (l : List Nat) (e : WSError),
    Section.deserialize l = .error e → e ≠ WSError.Eof := by
  intro l e h
  cases l with
  | nil => exact absurd h (by simp [Section.deserialize, varint.get7])
  | cons b t =>
    simp only [Section.deserialize, varint.get7] at h
    cases hg : varint.get32 t with
    | error e2 =>
      rw [hg] at h
      simp only [Except.error.injEq] at h
      subst h
      exact varint.get32Aux_no_eof 5 0 0 t e2 hg
    | ok q =>
      obtain ⟨len, r2⟩ := q
      rw [hg] at h
      simp only at h
      cases hr : readExact len r2 with
      | error e2 =>
        rw [hr] at h
        simp only [Except.error.injEq] at h
        subst h
        rw [readExact_error hr]
        simp
      | ok q2 =>
        obtain ⟨payload, r3⟩ := q2
        rw [hr] at h
        simp only at h
        cases hn : Section.new (SectionId.fromByte (b % 128)) payload with
        | error e2 =>
          rw [hn] at h
          simp only [Except.error.injEq] at h
          subst h
          exact Section.new_no_eof hn
        | ok s =>
          rw [hn] at h
          exact absurd h (by simp)

/-- A successful section read from a nonempty source always yields a section
(`Ok(None)` happens only at a clean section boundary, i.e. an empty source). -/
theorem Section.deserialize_cons_some : ∀ (b : Nat) (t : List Nat)
    (os : Option Section) (rest : List Nat),
    Section.deserialize (b :: t) = .ok (os, rest) → os.isSome = true := by
  intro b t os rest h
  simp only [Section.deserialize, varint.get7] at h
  cases hg : varint.get32 t with
  | error e2 => rw [hg] at h; exact absurd h (by simp)
  | ok q =>
    obtain ⟨len, r2⟩ := q
    rw [hg] at h
    simp only at h
    cases hr : readExact len r2 with
    | error e2 => rw [hr] at h; exact absurd h (by simp)
    | ok q2 =>
      obtain ⟨payload, r3⟩ := q2
      rw [hr] at h
      simp only at h
      cases hn : Section.new (SectionId.fromByte (b % 128)) payload with
      | error e2 => rw [hn] at h; exact absurd h (by simp)
      | ok s =>
        rw [hn] at h
        simp only [Except.ok.injEq, Prod.mk.injEq] at h
        obtain ⟨h1, _⟩ := h
        rw [← h1]
        rfl

/-- A successfully parsed section consumes at least its id byte. -/
theorem Section.deserialize_length_lt : ∀ (l : List Nat) (s : Section)
    (rest : List Nat),
    Section.deserialize l = .ok (some s, rest) → rest.length < l.length := by
  intro l s rest h
  cases l with
  | nil =>
    simp only [Section.deserialize, varint.get7, Except.ok.injEq, Prod.mk.injEq] at h
    exact absurd h.1 (by simp)
  | cons b t =>
    simp only [Section.deserialize, varint.get7] at h
    cases hg : varint.get32 t with
    | error e2 => rw [hg] at h; exact absurd h (by simp)
    | ok q =>
      obtain ⟨len, r2⟩ := q
      rw [hg] at h
      simp only at h
      cases hr : readExact len r2 with
      | error e2 => rw [hr] at h; exact absurd h (by simp)
      | ok q2 =>
        obtain ⟨payload, r3⟩ := q2
        rw [hr] at h
        simp only at h
        cases hn : Section.new (SectionId.fromByte (b % 128)) payload with
        | error e2 => rw [hn] at h; exact absurd h (by simp)
        | ok s2 =>
          rw [hn] at h
          simp only [Except.ok.injEq, Prod.mk.injEq] at h
          obtain ⟨_, h2⟩ := h
          subst h2
          have l1 := varint.get32Aux_length_le 5 0 0 t len r2 hg
          have l2 := readExact_length_le hr
          simp only [List.length_cons]
          omega

/-! Helper lemmas about the section-collection loop. -/

/-- Any fuel above the input length gives the same collection result: the
loop is bounded by the input length because each parsed section consumes at
least one byte. -/
theorem collectSectionsFuel_congr : ∀ (f1 f2 : Nat) (l : List Nat),
    l.length < f1 → l.length < f2 →
    collectSectionsFuel f1 l = collectSectionsFuel f2 l := by
  intro f1
  induction f1 with
  | zero => intro f2 l h1 _; omega
  | succ a ih =>
    intro f2 l h1 h2
    cases f2 with
    | zero => omega
    | succ b =>
      cases hd : Section.deserialize l with
      | error e => simp only [collectSectionsFuel, hd]
      | ok p =>
        obtain ⟨os, rest⟩ := p
        cases os with
        | none => simp only [collectSectionsFuel, hd]
        | some s =>
          have hlt := Section.deserialize_length_lt l s rest hd
          simp only [collectSectionsFuel, hd]
          rw [ih b rest (by omega) (by omega)]

/-- Collection propagates the first section-level error. -/
theorem collectSections_error {l : List Nat} {e : WSError}
    (h : Section.deserialize l = .error e) : collectSections l = .error e := by
  unfold collectSections
  simp only [collectSectionsFuel, h]

/-- Collection stops with the empty list at a clean section boundary. -/
theorem collectSections_none {l r : List Nat}
    (h : Section.deserialize l = .ok (none, r)) : collectSections l = .ok [] := by
  unfold collectSections
  simp only [collectSectionsFuel, h]

/-- Collection is eager and order-preserving: a successfully parsed section is
prepended to the collection of the remaining input. -/
theorem collectSections_cons {l : List Nat} {s : Section} {rest : List Nat}
    (h : Section.deserialize l = .ok (some s, rest)) :
    collectSections l = Except.map (fun ss => s :: ss) (collectSections rest) := by
  have hlt := Section.deserialize_length_lt l s rest h
  cases hc : collectSections rest with
  | error e =>
    have hrw : collectSectionsFuel l.length rest = .error e := by
      rw [collectSectionsFuel_congr l.length (rest.length + 1) rest (by omega) (by omega)]
      exact hc
    unfold collectSections
    simp only [collectSectionsFuel, h, hrw, Except.map]
  | ok ss =>
    have hrw : collectSectionsFuel l.length rest = .ok ss := by
      rw [collectSectionsFuel_congr l.length (rest.length + 1) rest (by omega) (by omega)]
      exact hc
    unfold collectSections
    simp only [collectSectionsFuel, h, hrw, Except.map]

/-! Helper lemmas about serialization shape. -/

/-- Sink writes only append: serializing into a sink prefixes the sink. -/
theorem Section.serialize_append (s : Section) (w : List Nat) :
    Section.serialize s w = w ++ Section.serialize s [] := by
  cases s <;> simp [Section.serialize]

/-- Module serialization is the header followed by each section's bytes in
original order. -/
theorem Module.serialize_bytes (m : Module) (w : List Nat) :
    Module.serialize m w = w ++ m.header ++ sectionsBytes m.sections := by
  have key : ∀ (ss : List Section) (w0 : List Nat),
      ss.foldl (fun w s => Section.serialize s w) w0 = w0 ++ sectionsBytes ss := by
    intro ss
    induction ss with
    | nil => intro w0; simp [sectionsBytes]
    | cons s t ih =>
      intro w0
      simp only [List.foldl_cons, sectionsBytes, ih, Section.serialize_append s w0]
      simp [List.append_assoc]
  unfold Module.serialize
  rw [key]

/-- Header parsing succeeds on a recognized 8-byte header and hands back the
remaining bytes. -/
theorem Module.stream_init_append {h : List Nat}
    (hh : h = WASM_HEADER ∨ h = WASM_HEADER_COMPONENT) (b : List Nat) :
    Module.stream_init (h ++ b) = .ok (h, b) := by
  have h8 : h.length = 8 := by rcases hh with rfl | rfl <;> rfl
  unfold Module.stream_init
  rw [show (8 : Nat) = h.length from h8.symm, readExact_append]
  rcases hh with rfl | rfl <;> simp [WASM_HEADER, WASM_HEADER_COMPONENT]

/-- Section-level round trip: a valid section with a single-byte id
serializes to bytes that deserialize back to exactly that section, leaving
any trailing bytes untouched. -/
theorem Section.deserialize_serialize (s : Section) (hv : Section.validb s = true)
    (hb : SectionId.toByte s.id < 128) (rest : List Nat) :
    Section.deserialize (Section.serialize s [] ++ rest) = .ok (some s, rest) := by
  cases s with
  | Standard st =>
    simp only [Section.id] at hb
    simp only [Section.validb, Bool.and_eq_true, decide_eq_true_eq] at hv
    obtain ⟨⟨⟨hwf, hne⟩, _hbytes⟩, hlen⟩ := hv
    have h3 : Section.new (SectionId.fromByte (SectionId.toByte st.id)) st.payload
        = .ok (Section.Standard st) := by
      rw [SectionId.fromByte_toByte hwf]
      exact Section.new_of_ne hne st.payload
    simp only [Section.serialize, Section.id, List.nil_append,
      varint.put_of_lt hb, List.cons_append, List.append_assoc]
    simp only [Section.deserialize, varint.get7, Nat.mod_eq_of_lt hb,
      varint.get32_put hlen, readExact_append, h3]
  | Custom c =>
    simp only [Section.id] at hb
    simp only [Section.validb, Bool.and_eq_true, decide_eq_true_eq] at hv
    obtain ⟨⟨⟨hutf, _hbytes⟩, hnlen⟩, holen⟩ := hv
    have h3 : Section.new SectionId.CustomSection c.outer_payload
        = .ok (Section.Custom c) := by
      simp only [Section.new, CustomSection.outer_payload, List.append_assoc,
        varint.get32_put hnlen, readExact_append, hutf, if_true]
    simp only [Section.serialize, Section.id, List.nil_append,
      varint.put_of_lt hb, List.cons_append, List.append_assoc]
    simp only [Section.deserialize, varint.get7, Nat.mod_eq_of_lt hb,
      varint.get32_put holen, readExact_append]
    simp [SectionId.toByte, SectionId.fromByte, h3]

/-- Round trip of a list of valid sections with single-byte ids. -/
theorem collectSections_sectionsBytes : ∀ (ss : List Section),
    (∀ s ∈ ss, Section.validb s = true ∧ Section.idByteSmall s = true) →
    collectSections (sectionsBytes ss) = .ok ss := by
  intro ss
  induction ss with
  | nil => intro _; rfl
  | cons s t ih =>
    intro hall
    have hs := hall s (by simp)
    have hsmall : SectionId.toByte s.id < 128 := by
      have := hs.2
      simpa [Section.idByteSmall] using this
    have hd : Section.deserialize (sectionsBytes (s :: t)) = .ok (some s, sectionsBytes t) := by
      have := Section.deserialize_serialize s hs.1 hsmall (sectionsBytes t)
      simpa [sectionsBytes] using this
    rw [collectSections_cons hd, ih (fun x hx => hall x (by simp [hx]))]
    rfl

/-! Claim theorems. -/

/-- Claim C1, counterexample: the claim fails as stated.  The module with the
core header and one `Extension 128` standard section (empty payload) is
syntactically valid, yet deserializing its serialization does not give it
back: `Section::serialize` emits the id 128 as the two-byte LEB128 `[128, 1]`
while `Section::deserialize` reads a single id byte via `get7` and masks it to
7 bits, so the record re-parses as a custom section. -/
theorem c1_round_trip_counterexample :
    Module.validb ⟨WASM_HEADER, [Section.Standard ⟨SectionId.Extension 128, []⟩]⟩ = true
  ∧ Module.deserialize (Module.serialize
        ⟨WASM_HEADER, [Section.Standard ⟨SectionId.Extension 128, []⟩]⟩ []) ≠
      .ok ⟨WASM_HEADER, [Section.Standard ⟨SectionId.Extension 128, []⟩]⟩ :=
  ⟨by decide, by decide⟩

/-- Claim C1 (amended): for every syntactically valid module whose section id
bytes are all at most 127 (all standard ids and `Extension` ids 12-127),
deserializing the bytes produced by `Module::serialize` yields the module
back exactly, including preservation of `Extension` ids in that range and of
empty payloads.  Id bytes 128-255 are excluded: for those, serialization and
deserialization disagree on the id encoding (see the counterexample). -/
theorem c1_round_trip_amended (m : Module) (hv : Module.validb m = true)
    (hsmall : m.sections.all Section.idByteSmall = true) :
    Module.deserialize (Module.serialize m []) = .ok m := by
  simp only [Module.validb, Bool.and_eq_true, decide_eq_true_eq] at hv
  obtain ⟨hh, hall⟩ := hv
  simp only [List.all_eq_true] at hall hsmall
  rw [Module.serialize_bytes]
  simp only [List.nil_append]
  unfold Module.deserialize
  rw [Module.stream_init_append hh]
  simp only [collectSections_sectionsBytes m.sections (fun s hs => ⟨hall s hs, hsmall s hs⟩)]

/-- Claim C1 witness: the amended round trip on a concrete valid module with
a standard section, a custom section, an `Extension 42` section, and an empty
payload. -/
theorem c1_round_trip_amended_witness :
    Module.deserialize (Module.serialize
        ⟨WASM_HEADER,
         [Section.Standard ⟨SectionId.Type', [7]⟩,
          Section.Custom ⟨[110, 97, 109, 101], [1, 2, 3]⟩,
          Section.Standard ⟨SectionId.Extension 42, []⟩]⟩ []) =
      .ok ⟨WASM_HEADER,
           [Section.Standard ⟨SectionId.Type', [7]⟩,
            Section.Custom ⟨[110, 97, 109, 101], [1, 2, 3]⟩,
            Section.Standard ⟨SectionId.Extension 42, []⟩]⟩ :=
  c1_round_trip_amended _ (by decide) (by decide)

/-- Claim C2: any input whose first 8 bytes are neither the core-module
constant nor the component constant makes `Module::deserialize` fail with
`UnsupportedModuleType`; in the `Except` result no sections (and no partial
module) are produced. -/
theorem c2_header_rejection (l : List Nat) (h8 : 8 ≤ l.length)
    (h1 : l.take 8 ≠ WASM_HEADER) (h2 : l.take 8 ≠ WASM_HEADER_COMPONENT) :
    Module.deserialize l = .error WSError.UnsupportedModuleType := by
  unfold Module.deserialize Module.stream_init readExact
  rw [if_pos h8]
  simp [h1, h2]

/-- Claim C2 witness: twelve `7` bytes are rejected as an unsupported module
type. -/
theorem c2_header_rejection_witness :
    Module.deserialize (List.replicate 12 7) = .error WSError.UnsupportedModuleType :=
  c2_header_rejection (List.replicate 12 7) (by decide) (by decide) (by decide)

/-- Claim C3: `Section::deserialize` answers "no more sections" exactly on an
exhausted source (clean `Eof` before the id byte); once the id byte has been
read, the result is never `None` and never the `Eof` error, and exhaustion
mid-length-field (`[1, 130]`: continuation bit set, then nothing) or
mid-payload (`[1, 5, 1, 2]`: declared length 5, two bytes available) is the
truncation-class error. -/
theorem c3_eof_discipline :
    Section.deserialize [] = .ok (none, [])
  ∧ (∀ (l : List Nat) (os : Option Section) (rest : List Nat), l ≠ [] →
      Section.deserialize l = .ok (os, rest) → os.isSome = true)
  ∧ (∀ (l : List Nat) (e : WSError), Section.deserialize l = .error e → e ≠ WSError.Eof)
  ∧ Section.deserialize [1, 130] = .error WSError.TruncatedInput
  ∧ Section.deserialize [1, 5, 1, 2] = .error WSError.TruncatedInput := by
  refine ⟨rfl, ?_, Section.deserialize_no_eof, by decide, by decide⟩
  intro l os rest hne h
  cases l with
  | nil => exact absurd rfl hne
  | cons b t => exact Section.deserialize_cons_some b t os rest h

/-- Claim C3 witness: the universally quantified conjuncts instantiated on
concrete inputs (`[1, 0]` parses to a standard section; `[1, 5, 1, 2]` fails
with the truncation error, which is not `Eof`). -/
theorem c3_eof_discipline_witness :
    (some (Section.Standard ⟨SectionId.Type', []⟩)).isSome = true
  ∧ WSError.TruncatedInput ≠ WSError.Eof :=
  ⟨c3_eof_discipline.2.1 [1, 0] (some (Section.Standard ⟨SectionId.Type', []⟩)) []
      (by decide) (by decide),
   c3_eof_discipline.2.2.1 [1, 5, 1, 2] WSError.TruncatedInput (by decide)⟩

/-- Claim C4, counterexample: the claim fails as stated.  `Extension 5` is a
value of the `SectionId` type (the Rust enum imposes no range restriction on
the `Extension` payload), yet converting it to its byte 5 and back yields the
`Memory` variant, not `Extension 5`: the round trip on the enum side holds
only for canonical values. -/
theorem c4_bijection_counterexample :
    SectionId.fromByte (SectionId.toByte (SectionId.Extension 5)) ≠ SectionId.Extension 5 := by
  decide

/-- Claim C4 (amended): every byte value 0-255 converts to a `SectionId`
without rejection and converting back yields the original byte; conversely,
every `SectionId` in canonical form (its `Extension` payload, when present,
lying in 12-255 as the data model prescribes) converts to a byte and back to
itself.  Non-canonical values such as `Extension 5` instead normalize to the
corresponding standard variant. -/
theorem c4_bijection_amended :
    (∀ b : Nat, b < 256 → SectionId.toByte (SectionId.fromByte b) = b)
  ∧ (∀ id : SectionId, id.wfb = true → SectionId.fromByte (SectionId.toByte id) = id) := by
  constructor
  · intro b _
    by_cases h : 12 ≤ b
    · rw [SectionId.fromByte_of_ge h]
      rfl
    · have hb : b < 12 := by omega
      interval_cases b <;> rfl
  · intro id h
    exact SectionId.fromByte_toByte h

/-- Claim C4 witness: both directions of the amended bijection at the byte
200 and the canonical identifier `Extension 200`. -/
theorem c4_bijection_amended_witness :
    SectionId.toByte (SectionId.fromByte 200) = 200
  ∧ SectionId.fromByte (SectionId.toByte (SectionId.Extension 200)) = SectionId.Extension 200 :=
  ⟨c4_bijection_amended.1 200 (by decide),
   c4_bijection_amended.2 (SectionId.Extension 200) (by decide)⟩

/-- Claim C5: `Section::serialize` writes exactly the LEB128 encoding of the
id byte, then the LEB128 encoding of the byte count, then the bytes — the raw
payload for a standard section, and `varint(len(name)) ++ name ++ payload`
for a custom section. -/
theorem c5_serialize_layout :
    (∀ (st : StandardSection) (w : List Nat),
        Section.serialize (Section.Standard st) w =
          w ++ varint.put (SectionId.toByte (Section.id (Section.Standard st)))
            ++ varint.put st.payload.length ++ st.payload)
  ∧ (∀ (c : CustomSection) (w : List Nat),
        Section.serialize (Section.Custom c) w =
          w ++ varint.put (SectionId.toByte (Section.id (Section.Custom c)))
            ++ varint.put (varint.put c.name.length ++ c.name ++ c.payload).length
            ++ (varint.put c.name.length ++ c.name ++ c.payload)) := by
  constructor
  · intro st w; rfl
  · intro c w; rfl

/-- Claim C6: `Section::new` with the custom-section id decodes the payload
as `varint32(name_len) ++ name_bytes[name_len] ++ remaining`: it fails with
the truncation error when fewer than `name_len` bytes follow the varint,
fails with the encoding error when the name bytes are not valid UTF-8, and
otherwise returns the custom section with that name and the (possibly empty)
remainder as inner payload. -/
theorem c6_custom_decode (p : List Nat) (n : Nat) (rest : List Nat)
    (h : varint.get32 p = .ok (n, rest)) :
    (rest.length < n → Section.new SectionId.CustomSection p = .error WSError.TruncatedInput)
  ∧ (n ≤ rest.length → utf8Valid (rest.take n) = false →
      Section.new SectionId.CustomSection p = .error WSError.InvalidUtf8)
  ∧ (n ≤ rest.length → utf8Valid (rest.take n) = true →
      Section.new SectionId.CustomSection p =
        .ok (Section.Custom ⟨rest.take n, rest.drop n⟩)) := by
  refine ⟨?_, ?_, ?_⟩
  · intro h1
    simp only [Section.new, h, readExact]
    rw [if_neg (by omega)]
  · intro h1 h2
    simp only [Section.new, h, readExact]
    rw [if_pos h1]
    simp [h2]
  · intro h1 h2
    simp only [Section.new, h, readExact]
    rw [if_pos h1]
    simp [h2]

/-- Claim C6 witness: the three branches on concrete payloads — `[5, 1, 2]`
declares a 5-byte name with 2 bytes left (truncation), `[1, 255]` has an
invalid UTF-8 name byte, and `[1, 110, 7]` decodes to name `"n"` with inner
payload `[7]`. -/
theorem c6_custom_decode_witness :
    Section.new SectionId.CustomSection [5, 1, 2] = .error WSError.TruncatedInput
  ∧ Section.new SectionId.CustomSection [1, 255] = .error WSError.InvalidUtf8
  ∧ Section.new SectionId.CustomSection [1, 110, 7] = .ok (Section.Custom ⟨[110], [7]⟩) :=
  ⟨(c6_custom_decode [5, 1, 2] 5 [1, 2] (by decide)).1 (by decide),
   (c6_custom_decode [1, 255] 1 [255] (by decide)).2.1 (by decide) (by decide),
   (c6_custom_decode [1, 110, 7] 1 [110, 7] (by decide)).2.2 (by decide) (by decide)⟩

/-- Claim C7, counterexample: the claim fails as stated.  The custom section
named `"name"` (bytes `[110, 97, 109, 101]`) with inner payload `[1, 2, 3]`
does not serialize with length byte 9: the outer payload
`[4, 110, 97, 109, 101, 1, 2, 3]` has 8 bytes (1 name-length varint byte +
4 name bytes + 3 payload bytes), so the record is `id=0, len=8, ...`. -/
theorem c7_custom_roundtrip_counterexample :
    Section.serialize (Section.Custom ⟨[110, 97, 109, 101], [1, 2, 3]⟩) [] ≠
      [0, 9, 4, 110, 97, 109, 101, 1, 2, 3] := by
  decide

/-- Claim C7 (amended): the custom section named `"name"` with inner payload
`[1, 2, 3]` serializes to `id=0, len=8` followed by
`[4, 'n', 'a', 'm', 'e', 1, 2, 3]`, and deserializing that record yields the
same name and payload. -/
theorem c7_custom_roundtrip_amended :
    Section.serialize (Section.Custom ⟨[110, 97, 109, 101], [1, 2, 3]⟩) [] =
      [0, 8, 4, 110, 97, 109, 101, 1, 2, 3]
  ∧ Section.deserialize [0, 8, 4, 110, 97, 109, 101, 1, 2, 3] =
      .ok (some (Section.Custom ⟨[110, 97, 109, 101], [1, 2, 3]⟩), []) :=
  ⟨by decide, by decide⟩

/-- Claim C8: `Module::deserialize` collects sections eagerly in input order
— after a recognized header the result is exactly the mapped result of
collecting the body, collection prepends each successfully parsed section to
the collection of the rest, and the first section-level error aborts
collection and becomes the overall error, so no partially-populated module
ever accompanies an error. -/
theorem c8_eager_collection :
    (∀ (hdr body : List Nat), (hdr = WASM_HEADER ∨ hdr = WASM_HEADER_COMPONENT) →
        Module.deserialize (hdr ++ body) =
          Except.map (fun ss => Module.mk hdr ss) (collectSections body))
  ∧ (∀ (l : List Nat) (s : Section) (rest : List Nat),
        Section.deserialize l = .ok (some s, rest) →
        collectSections l = Except.map (fun ss => s :: ss) (collectSections rest))
  ∧ (∀ (l : List Nat) (e : WSError), Section.deserialize l = .error e →
        collectSections l = .error e) := by
  refine ⟨?_, fun l s rest h => collectSections_cons h, fun l e h => collectSections_error h⟩
  intro hdr body hh
  unfold Module.deserialize
  rw [Module.stream_init_append hh]
  cases hc : collectSections body <;> simp [hc, Except.map]

/-- Claim C8 witness: a module whose body truncates mid-section makes the
whole `deserialize` fail with that section's truncation error. -/
theorem c8_eager_collection_witness :
    Module.deserialize (WASM_HEADER ++ [1, 5]) = .error WSError.TruncatedInput := by
  have h1 := c8_eager_collection.1 WASM_HEADER [1, 5] (Or.inl rfl)
  have h2 := c8_eager_collection.2.2 [1, 5] WSError.TruncatedInput (by decide)
  rw [h1, h2]
  rfl

/-- Claim C9: varint boundary behavior — encode/decode is the identity for 0,
127 (one byte, no continuation bit), 128 (two bytes), and `2 ^ 32 - 1` (five
bytes), and decoding an input whose first five bytes are all
continuation-chained (so that a sixth would be needed) fails with the
overflow error; in this total embedding no input can panic. -/
theorem c9_varint_boundaries :
    varint.put 0 = [0]
  ∧ varint.get32 (varint.put 0) = .ok (0, [])
  ∧ varint.put 127 = [127]
  ∧ varint.get32 (varint.put 127) = .ok (127, [])
  ∧ (varint.put 128).length = 2
  ∧ varint.get32 (varint.put 128) = .ok (128, [])
  ∧ (varint.put (2 ^ 32 - 1)).length = 5
  ∧ varint.get32 (varint.put (2 ^ 32 - 1)) = .ok (2 ^ 32 - 1, [])
  ∧ varint.get32 [128, 128, 128, 128, 128, 128] = .error WSError.Overflow := by
  refine ⟨by decide, by decide, by decide, by decide, by decide, by decide, by decide,
    by decide, by decide⟩

/-- Claim C10: `Module::serialize` performs no header validation — for every
module value it writes the header bytes verbatim followed by the sections'
bytes and succeeds (the in-memory sink accepts all writes); in particular the
all-zero default header serializes fine, producing bytes that
`Module::deserialize` then rejects as an unsupported module type. -/
theorem c10_serialize_no_validation :
    (∀ (m : Module) (w : List Nat),
        Module.serialize m w = w ++ m.header ++ sectionsBytes m.sections)
  ∧ Module.serialize ⟨List.replicate 8 0, []⟩ [] = List.replicate 8 0
  ∧ Module.deserialize (Module.serialize ⟨List.replicate 8 0, []⟩ []) =
      .error WSError.UnsupportedModuleType :=
  ⟨Module.serialize_bytes, by decide, by decide⟩

end Wasm
